import Mathlib

/-!
Verification of the yajsv validation pipeline (neilpa/yajsv, main.go at
v1.4.0-dev).  Byte buffers are `List Nat` with each element a byte value
below 256, as produced by Go's `[]byte`.  The charset normalizer
`jsonDecodeCharset`, the extension dispatcher `jsonLoader`, the
per-document classification and the sequential core of `realMain`
(document resolution, schema-compilation stage, aggregation, exit code)
are translated below; the schema engine (gojsonschema) and the
YAML-to-JSON converter are external collaborators and appear as function
parameters.
-/

namespace Yajsv

/-! ## Byte-order marks (constants `bomUTF8`, `bomUTF16BE`, `bomUTF16LE` in main.go) -/

def bomUTF8 : List Nat := [0xEF, 0xBB, 0xBF]

def bomUTF16BE : List Nat := [0xFE, 0xFF]

def bomUTF16LE : List Nat := [0xFF, 0xFE]

/-- The two UTF-16 byte orders (`encUTF16BE` / `encUTF16LE` in main.go). -/
inductive Endian where
  | be
  | le
deriving DecidableEq, Repr

/-! ## UTF-8 / UTF-16 coding

Model of `golang.org/x/text/encoding/unicode`'s UTF-16 decoder (with
`IgnoreBOM` policy, as instantiated in main.go) writing UTF-8 output via
`utf8.EncodeRune`, and of the corresponding encoder used to produce the
UTF-16 test data (`gen_testdata.go`). -/

/-- Model of `utf8.EncodeRune` for a Unicode scalar value (the decoder below only
ever emits scalar values, unpaired surrogates having been replaced by
U+FFFD already). -/
def utf8EncodeChar (c : Nat) : List Nat :=
  if c < 0x80 then [c]
  else if c < 0x800 then [0xC0 + c / 64, 0x80 + c % 64]
  else if c < 0x10000 then [0xE0 + c / 4096, 0x80 + c / 64 % 64, 0x80 + c % 64]
  else [0xF0 + c / 0x40000, 0x80 + c / 4096 % 64, 0x80 + c / 64 % 64, 0x80 + c % 64]

/-- UTF-8 encoding of a sequence of scalar values. -/
def utf8Encode : List Nat → List Nat
  | [] => []
  | c :: rest => utf8EncodeChar c ++ utf8Encode rest

/-- One 16-bit code unit from two bytes, per byte order
(`uint16(src[i])<<8 | uint16(src[i+1])`, byte-swapped for little endian). -/
def utf16Unit (e : Endian) (b0 b1 : Nat) : Nat :=
  match e with
  | .be => b0 * 256 + b1
  | .le => b1 * 256 + b0

/-- The two bytes of a 16-bit code unit, per byte order. -/
def utf16UnitBytes (e : Endian) (x : Nat) : List Nat :=
  match e with
  | .be => [x / 256, x % 256]
  | .le => [x % 256, x / 256]

/-- Model of `utf16.DecodeRune` applied to two code units, the first of which is a
surrogate: a high surrogate followed by a low surrogate combines to a
supplementary scalar, anything else gives U+FFFD. -/
def utf16Combine (x x2 : Nat) : Nat :=
  if x < 0xDC00 then 0x10000 + (x - 0xD800) * 0x400 + (x2 - 0xDC00) else 0xFFFD

/-- The byte stream as a list of 16-bit code units.  A single trailing
byte is represented by a lone high-surrogate unit: the decoder below
turns it into U+FFFD without letting it pair with a preceding surrogate,
exactly as the trailing byte behaves in `utf16Decoder.Transform`. -/
def utf16Units (e : Endian) : List Nat → List Nat
  | [] => []
  | [_] => [0xD800]
  | b0 :: b1 :: rest => utf16Unit e b0 b1 :: utf16Units e rest

/-- Decoding of a code-unit list, per `utf16Decoder.Transform`,
expressed one unit at a time with the surrogate looked ahead from held
as state: a surrogate followed by a unit in [0xDC00, 0xE000) combines
via `utf16.DecodeRune` (consuming both); a surrogate followed by
anything else, or at the end, becomes U+FFFD, and the following unit is
then processed afresh. -/
def utf16DecodeUnits : List Nat → Option Nat → List Nat
  | [], some _ => utf8EncodeChar 0xFFFD
  | [], none => []
  | x :: rest, some s =>
    if 0xDC00 ≤ x ∧ x < 0xE000 then
      utf8EncodeChar (utf16Combine s x) ++ utf16DecodeUnits rest none
    else
      utf8EncodeChar 0xFFFD ++
        (if 0xD800 ≤ x ∧ x < 0xE000 then utf16DecodeUnits rest (some x)
         else utf8EncodeChar x ++ utf16DecodeUnits rest none)
  | x :: rest, none =>
    if 0xD800 ≤ x ∧ x < 0xE000 then utf16DecodeUnits rest (some x)
    else utf8EncodeChar x ++ utf16DecodeUnits rest none

/-- The x/text UTF-16 decoder (`utf16Decoder.Transform` with `IgnoreBOM`
policy, at end of input), writing UTF-8 bytes.  The Go decoder never
reports an error on this path. -/
def utf16Decode (e : Endian) (buf : List Nat) : List Nat :=
  utf16DecodeUnits (utf16Units e buf) none

/-- UTF-16 encoding of one scalar value (the x/text encoder used by
`gen_testdata.go` to produce the UTF-16 test files). -/
def utf16EncodeChar (e : Endian) (c : Nat) : List Nat :=
  if c < 0x10000 then utf16UnitBytes e c
  else
    utf16UnitBytes e (0xD800 + (c - 0x10000) / 0x400) ++
      utf16UnitBytes e (0xDC00 + (c - 0x10000) % 0x400)

/-- UTF-16 encoding of a sequence of scalar values. -/
def utf16Encode (e : Endian) : List Nat → List Nat
  | [] => []
  | c :: rest => utf16EncodeChar e c ++ utf16Encode e rest

/-- A Unicode scalar value: in range and not a surrogate. -/
def ScalarValue (c : Nat) : Prop := c < 0x110000 ∧ ¬(0xD800 ≤ c ∧ c < 0xE000)

instance (c : Nat) : Decidable (ScalarValue c) := by
  unfold ScalarValue; infer_instance

/-- The UTF-16 code units of a scalar-value sequence: one unit below
0x10000, a surrogate pair above. -/
def unitsOfScalars : List Nat → List Nat
  | [] => []
  | c :: rest =>
    if c < 0x10000 then c :: unitsOfScalars rest
    else (0xD800 + (c - 0x10000) / 0x400) :: (0xDC00 + (c - 0x10000) % 0x400) :: unitsOfScalars rest

/-- The BOM announcing UTF-16 in the given byte order. -/
def bomBytes : Endian → List Nat
  | .be => bomUTF16BE
  | .le => bomUTF16LE

/-- A scalar sequence shaped like ordinary text (e.g. any JSON document):
the first character is nonzero ASCII and the second is not NUL, so its
UTF-8 encoding carries no BOM bytes and triggers neither zero-byte
heuristic. -/
def textShaped (cps : List Nat) : Bool :=
  (match cps with
   | [] => true
   | c :: _ => decide (0 < c ∧ c < 0x80)) &&
  (match cps with
   | _ :: c1 :: _ => c1 != 0
   | _ => true)

/-! ## Charset normalization (`jsonDecodeCharset` in main.go) -/

/-- The head `switch` of `jsonDecodeCharset`: in order, the three
literal BOM prefixes (`bytes.HasPrefix`), then the BOM-less heuristics
`buf[0] == 0` (UTF-16BE) and `buf[1] == 0` (UTF-16LE).  Returns the
detected BOM (empty when none) and the chosen decoder (none = UTF-8).
Only reached when the buffer has at least two bytes. -/
def sniff (buf : List Nat) : List Nat × Option Endian :=
  match buf with
  | 0xEF :: 0xBB :: 0xBF :: _ => (bomUTF8, none)
  | 0xFE :: 0xFF :: _ => (bomUTF16BE, some .be)
  | 0xFF :: 0xFE :: _ => (bomUTF16LE, some .le)
  | 0 :: _ => ([], some .be)
  | _ :: 0 :: _ => ([], some .le)
  | _ => ([], none)

/-- The normalizer `jsonDecodeCharset(buf)`: buffers shorter than two bytes are returned
unchanged; otherwise a detected BOM is an error unless `-b` (`allowBOM`)
was given, and is stripped when allowed; a determined UTF-16 encoding
decodes the remaining bytes (the Go decoder returns no error), and plain
UTF-8 passes through. -/
def jsonDecodeCharset (allowBOM : Bool) (buf : List Nat) : Except String (List Nat) :=
  if buf.length < 2 then .ok buf
  else
    let s := sniff buf
    if s.1 ≠ [] ∧ allowBOM = false then
      .error "unexpected BOM, see `-b` flag"
    else
      let stripped := buf.drop s.1.length
      match s.2 with
      | some e => .ok (utf16Decode e stripped)
      | none => .ok stripped

/-! ## Document loading (`jsonLoader` in main.go) -/

/-- Go's `filepath.Ext` on a Unix path: scan backwards, stop at a path
separator, return the suffix from the final dot (empty if none). -/
def extSearch : List Char → List Char → List Char
  | [], _ => []
  | c :: rest, acc =>
    if c = '/' then []
    else if c = '.' then c :: acc
    else extSearch rest (c :: acc)

def filepathExt (p : List Char) : List Char :=
  extSearch p.reverse []

def ymlExt : List Char := '.' :: 'y' :: 'm' :: 'l' :: []

def yamlExt : List Char := '.' :: 'y' :: 'a' :: 'm' :: 'l' :: []

/-- The loader `jsonLoader(path)` up to the final `NewBytesLoader` call: read the
file's bytes (`fs` models `ioutil.ReadFile`, an `error` result being a
failed read), then convert per the extension switch: `.yml`/`.yaml` go
through the external YAML-to-JSON converter, everything else through
`jsonDecodeCharset`.  Every failure is returned as the loader's error. -/
def jsonLoader (yamlToJSON : List Nat → Except String (List Nat))
    (allowBOM : Bool) (fs : List Char → Except String (List Nat))
    (path : List Char) : Except String (List Nat) :=
  match fs path with
  | .error e => .error e
  | .ok buf =>
    if filepathExt path = ymlExt ∨ filepathExt path = yamlExt then
      yamlToJSON buf
    else
      jsonDecodeCharset allowBOM buf

/-! ## Per-document validation (the worker body in `realMain`) -/

/-- The per-document status reported by the worker body. -/
inductive Outcome where
  | pass
  | fail (msgs : List String)
  | error (msg : String)
deriving DecidableEq, Repr

def Outcome.isFail : Outcome → Bool
  | .fail _ => true
  | _ => false

def Outcome.isError : Outcome → Bool
  | .error _ => true
  | _ => false

/-- Classification of the `schema.Validate` call (`validate` models the
opaque gojsonschema capability: an `error` result is the engine failing,
an `ok` result lists the structural violations, empty meaning valid). -/
def classifyValidate (r : Except String (List String)) : Outcome :=
  match r with
  | .error e => .error ("validate: " ++ e)
  | .ok [] => .pass
  | .ok msgs => .fail msgs

/-- The worker body for one document: load, then validate, classifying
exactly as the `switch` in `realMain`'s goroutine. -/
def processDoc (yamlToJSON : List Nat → Except String (List Nat))
    (validate : List Nat → Except String (List String))
    (allowBOM : Bool) (fs : List Char → Except String (List Nat))
    (path : List Char) : Outcome :=
  match jsonLoader yamlToJSON allowBOM fs path with
  | .error e => .error ("load doc: " ++ e)
  | .ok buf => classifyValidate (validate buf)

/-! ## Aggregation, output and exit code (the tail of `realMain`) -/

def pathStr (p : List Char) : String := String.mk p

/-- The single (possibly multi-line) string appended to `failures` for a
failing document: one `"<path>: fail: <desc>"` line per violation. -/
def failBlock (p : List Char) (msgs : List String) : String :=
  String.intercalate "\n" (msgs.map (fun d => pathStr p ++ ": fail: " ++ d))

/-- The string printed and appended to `errors` for an errored document. -/
def errorLine (p : List Char) (e : String) : String :=
  pathStr p ++ ": error: " ++ e

def concatAll : List (List String) → List String
  | [] => []
  | l :: rest => l ++ concatAll rest

/-- The run summary assembled by `realMain` after the `wg.Wait()` join
barrier, with the workers' effects taken in input order (the exit code
and the line sets do not depend on completion order). -/
structure RunResult where
  docLines : List String
  summary : List String
  failures : List String
  errors : List String
  exit : Nat
deriving DecidableEq, Repr

def runDocs (yamlToJSON : List Nat → Except String (List Nat))
    (validate : List Nat → Except String (List String))
    (allowBOM quiet : Bool) (fs : List Char → Except String (List Nat))
    (docs : List (List Char)) : RunResult :=
  let outs := docs.map (fun p => (p, processDoc yamlToJSON validate allowBOM fs p))
  let failures := outs.filterMap (fun po =>
    match po.2 with
    | .fail msgs => some (failBlock po.1 msgs)
    | _ => none)
  let errors := outs.filterMap (fun po =>
    match po.2 with
    | .error e => some (errorLine po.1 e)
    | _ => none)
  let docLines := concatAll (outs.map (fun po =>
    match po.2 with
    | .error e => [errorLine po.1 e]
    | .fail msgs => [failBlock po.1 msgs]
    | .pass => if quiet then [] else [pathStr po.1 ++ ": pass"]))
  let summary :=
    (if quiet = false ∧ failures ≠ [] then
      [toString failures.length ++ " of " ++ toString docs.length ++ " failed validation",
       String.intercalate "\n" failures]
     else []) ++
    (if quiet = false ∧ errors ≠ [] then
      [toString errors.length ++ " of " ++ toString docs.length ++ " malformed documents",
       String.intercalate "\n" errors]
     else [])
  { docLines := docLines, summary := summary, failures := failures, errors := errors,
    exit := (if failures ≠ [] then 1 else 0) ||| (if errors ≠ [] then 2 else 0) }

/-! ## `realMain` (sequential core) -/

/-- One invocation's inputs, post flag parsing and globbing: `args` are
the positional document paths after `glob`, each `-l` file list is the
list of paths it resolves to or the read/scan error (`os.Open` or
`scanner.Err`), and `compile` is the outcome of the whole
schema-compilation stage (reference loading, `AddSchemas`, `Compile`) —
a validator on success, the first error otherwise. -/
structure Config where
  version : Bool
  schemaFlag : List Char
  quiet : Bool
  allowBOM : Bool
  args : List (List Char)
  lists : List (Except String (List (List Char)))
  compile : Except String (List Nat → Except String (List String))

/-- The loop over `-l` lists: lists are read in order; the first failing list ends
the run (`schemaError`, exit 5). -/
def resolveLists : List (Except String (List (List Char))) → Except String (List (List Char))
  | [] => .ok []
  | .error e :: _ => .error e
  | .ok ps :: rest =>
    match resolveLists rest with
    | .error e => .error e
    | .ok more => .ok (ps ++ more)

/-- The function `realMain`, returning the exit code and the lines written to `w`
(stdout); usage and schema errors print to stderr only.  Stages in
source order: `-v`, missing `-s` (usage, 4), document resolution (list
errors are schema errors, 5), empty document set (usage, 4), schema
compilation (5), then the worker pool and summary. -/
def realMain (yamlToJSON : List Nat → Except String (List Nat))
    (fs : List Char → Except String (List Nat)) (cfg : Config) : Nat × List String :=
  if cfg.version then (0, ["v1.4.0-dev"])
  else if cfg.schemaFlag = [] then (4, [])
  else
    match resolveLists cfg.lists with
    | .error _ => (5, [])
    | .ok listDocs =>
      let docs := cfg.args ++ listDocs
      if docs = [] then (4, [])
      else
        match cfg.compile with
        | .error _ => (5, [])
        | .ok validate =>
          let r := runDocs yamlToJSON validate cfg.allowBOM cfg.quiet fs docs
          (r.exit, r.docLines ++ r.summary)

/-! ## The shared-slice append of the worker goroutines

`realMain` runs `failures = append(failures, msg)` (and the same for
`errors`) concurrently from every worker goroutine with no mutual
exclusion; the buffered `sem` channel has capacity `GOMAXPROCS+10`, so
it does not serialize the workers.  The model below makes the two halves
of one unsynchronized append explicit: a read of the shared slice and a
later write of the snapshot extended by the worker's message, steps of
different workers interleaving freely. -/

inductive RaceStep where
  | read (w : Nat)
  | write (w : Nat)

structure RaceState where
  shared : List String
  pending : Nat → Option (List String)

def raceInit : RaceState := ⟨[], fun _ => none⟩

def raceStep (msg : Nat → String) (s : RaceState) : RaceStep → RaceState
  | .read w => { s with pending := fun w2 => if w2 = w then some s.shared else s.pending w2 }
  | .write w =>
    match s.pending w with
    | some snap => { s with shared := snap ++ [msg w] }
    | none => s

def raceRun (msg : Nat → String) (sched : List RaceStep) : RaceState :=
  sched.foldl (raceStep msg) raceInit

deriving instance DecidableEq for Except

/-! ## Charset-normalizer lemmas -/

lemma sniff_utf8bom (r : List Nat) : sniff (0xEF :: 0xBB :: 0xBF :: r) = (bomUTF8, none) := rfl

lemma sniff_bom_be (r : List Nat) : sniff (0xFE :: 0xFF :: r) = (bomUTF16BE, some .be) := rfl

lemma sniff_bom_le (r : List Nat) : sniff (0xFF :: 0xFE :: r) = (bomUTF16LE, some .le) := rfl

lemma sniff_zero (b1 : Nat) (t : List Nat) : sniff (0 :: b1 :: t) = ([], some .be) := by
  unfold sniff; split <;> simp_all

lemma sniff_one_zero (b0 : Nat) (t : List Nat) (h : b0 ≠ 0) :
    sniff (b0 :: 0 :: t) = ([], some .le) := by
  unfold sniff; split <;> simp_all

lemma sniff_default (b0 b1 : Nat) (t : List Nat) (h8 : ¬ bomUTF8 <+: b0 :: b1 :: t)
    (hbe : ¬ bomUTF16BE <+: b0 :: b1 :: t) (hle : ¬ bomUTF16LE <+: b0 :: b1 :: t)
    (h0 : b0 ≠ 0) (h1 : b1 ≠ 0) : sniff (b0 :: b1 :: t) = ([], none) := by
  unfold sniff
  split
  · next r heq => exact absurd (by rw [heq]; exact ⟨r, rfl⟩) h8
  · next r heq => exact absurd (by rw [heq]; exact ⟨r, rfl⟩) hbe
  · next r heq => exact absurd (by rw [heq]; exact ⟨r, rfl⟩) hle
  · simp_all
  · simp_all
  · rfl

lemma jsonDecodeCharset_utf8bom (ab : Bool) (r : List Nat) :
    jsonDecodeCharset ab (0xEF :: 0xBB :: 0xBF :: r) =
      if ab then .ok r else .error "unexpected BOM, see `-b` flag" := by
  cases ab <;> simp [jsonDecodeCharset, sniff_utf8bom, bomUTF8]

lemma jsonDecodeCharset_bom16 (ab : Bool) (e : Endian) (r : List Nat) :
    jsonDecodeCharset ab (bomBytes e ++ r) =
      if ab then .ok (utf16Decode e r) else .error "unexpected BOM, see `-b` flag" := by
  cases ab <;> cases e <;>
    simp [jsonDecodeCharset, bomBytes, bomUTF16BE, bomUTF16LE,
      sniff_bom_be, sniff_bom_le]

lemma jsonDecodeCharset_zero (ab : Bool) (b1 : Nat) (t : List Nat) :
    jsonDecodeCharset ab (0 :: b1 :: t) = .ok (utf16Decode .be (0 :: b1 :: t)) := by
  simp [jsonDecodeCharset, sniff_zero]

lemma jsonDecodeCharset_one_zero (ab : Bool) (b0 : Nat) (t : List Nat) (h : b0 ≠ 0) :
    jsonDecodeCharset ab (b0 :: 0 :: t) = .ok (utf16Decode .le (b0 :: 0 :: t)) := by
  simp [jsonDecodeCharset, sniff_one_zero _ _ h]

lemma jsonDecodeCharset_plain (ab : Bool) (b0 b1 : Nat) (t : List Nat)
    (h8 : ¬ bomUTF8 <+: b0 :: b1 :: t) (hbe : ¬ bomUTF16BE <+: b0 :: b1 :: t)
    (hle : ¬ bomUTF16LE <+: b0 :: b1 :: t) (h0 : b0 ≠ 0) (h1 : b1 ≠ 0) :
    jsonDecodeCharset ab (b0 :: b1 :: t) = .ok (b0 :: b1 :: t) := by
  simp [jsonDecodeCharset, sniff_default _ _ _ h8 hbe hle h0 h1]

/-! ## Claim C9 -/

/-- C9: a buffer shorter than two bytes (empty or single-byte) is
treated as UTF-8 by `jsonDecodeCharset` and returned unchanged — no BOM
error and no UTF-16 decoding — for either setting of the allow-BOM
flag. -/
theorem short_buffer_unchanged (allowBOM : Bool) (buf : List Nat) (h : buf.length < 2) :
    jsonDecodeCharset allowBOM buf = .ok buf := by
  simp [jsonDecodeCharset, h]

theorem short_buffer_unchanged_witness :
    (([] : List Nat).length < 2 ∧ jsonDecodeCharset false [] = .ok []) ∧
    (([0x41] : List Nat).length < 2 ∧ jsonDecodeCharset true [0x41] = .ok [0x41]) :=
  ⟨⟨by decide, short_buffer_unchanged false [] (by decide)⟩,
   ⟨by decide, short_buffer_unchanged true [0x41] (by decide)⟩⟩

/-! ## Claim C4 -/

/-- C4 (counterexample): on the BOM-less buffer `[0x00, 0x00, 0x41,
0x42]`, which has a zero byte at offset 1, `jsonDecodeCharset` decodes
the whole buffer as UTF-16 *big*-endian (the offset-0 case of the switch
wins), and the big- and little-endian decodings differ — so the claim's
"a zero byte at offset 1 causes it to be decoded as UTF-16
little-endian" fails at this input. -/
theorem utf16_heuristic_cex :
    utf16Decode .be [0, 0, 0x41, 0x42] ≠ utf16Decode .le [0, 0, 0x41, 0x42] ∧
    jsonDecodeCharset false [0, 0, 0x41, 0x42] = .ok (utf16Decode .be [0, 0, 0x41, 0x42]) ∧
    jsonDecodeCharset false [0, 0, 0x41, 0x42] ≠ .ok (utf16Decode .le [0, 0, 0x41, 0x42]) := by
  decide

/-- C4 (amended): for a buffer of length at least two, a zero byte at
offset 0 decodes the whole buffer as UTF-16 big-endian; a zero byte at
offset 1 with a *nonzero* byte at offset 0 decodes it as UTF-16
little-endian (such buffers never carry a BOM, so the heuristic indeed
fires only for BOM-less input); a buffer starting with none of the three
BOMs and with no zero byte at offsets 0 and 1 is returned unchanged.
All of this is independent of the allow-BOM flag. -/
theorem utf16_heuristic (allowBOM : Bool) (b0 b1 : Nat) (t : List Nat) :
    (b0 = 0 → jsonDecodeCharset allowBOM (b0 :: b1 :: t) =
      .ok (utf16Decode .be (b0 :: b1 :: t))) ∧
    (b0 ≠ 0 → b1 = 0 → jsonDecodeCharset allowBOM (b0 :: b1 :: t) =
      .ok (utf16Decode .le (b0 :: b1 :: t))) ∧
    (¬ bomUTF8 <+: b0 :: b1 :: t → ¬ bomUTF16BE <+: b0 :: b1 :: t →
      ¬ bomUTF16LE <+: b0 :: b1 :: t → b0 ≠ 0 → b1 ≠ 0 →
      jsonDecodeCharset allowBOM (b0 :: b1 :: t) = .ok (b0 :: b1 :: t)) := by
  refine ⟨?_, ?_, ?_⟩
  · rintro rfl
    exact jsonDecodeCharset_zero allowBOM b1 t
  · rintro h0 rfl
    exact jsonDecodeCharset_one_zero allowBOM b0 t h0
  · intro h8 hbe hle h0 h1
    exact jsonDecodeCharset_plain allowBOM b0 b1 t h8 hbe hle h0 h1

theorem utf16_heuristic_witness :
    jsonDecodeCharset false [0, 0x41] = .ok (utf16Decode .be [0, 0x41]) ∧
    jsonDecodeCharset false [0x41, 0] = .ok (utf16Decode .le [0x41, 0]) ∧
    jsonDecodeCharset true [0x7B, 0x7D] = .ok [0x7B, 0x7D] :=
  ⟨(utf16_heuristic false 0 0x41 []).1 rfl,
   (utf16_heuristic false 0x41 0 []).2.1 (by decide) rfl,
   (utf16_heuristic true 0x7B 0x7D []).2.2 (by decide) (by decide) (by decide)
     (by decide) (by decide)⟩

/-! ## Claim C3 -/

/-- C3: a JSON-family buffer starting with the UTF-8, UTF-16BE or
UTF-16LE BOM fails normalization with the "unexpected BOM" load error
when the allow-BOM flag is unset; when it is set, exactly the BOM's byte
length is stripped before any further decoding (no decoding for UTF-8,
UTF-16 decoding of the remainder otherwise).  At the pipeline level, a
UTF-8-BOM-prefixed document at a non-YAML path is an Error outcome
without `-b`, and with `-b` its outcome is exactly the classification of
validating its content. -/
theorem bom_handling (rest c : List Nat)
    (yamlToJSON : List Nat → Except String (List Nat))
    (validate : List Nat → Except String (List String))
    (fs : List Char → Except String (List Nat)) (path : List Char) :
    (jsonDecodeCharset false (0xEF :: 0xBB :: 0xBF :: rest) =
        .error "unexpected BOM, see `-b` flag" ∧
      jsonDecodeCharset false (0xFE :: 0xFF :: rest) =
        .error "unexpected BOM, see `-b` flag" ∧
      jsonDecodeCharset false (0xFF :: 0xFE :: rest) =
        .error "unexpected BOM, see `-b` flag") ∧
    (jsonDecodeCharset true (0xEF :: 0xBB :: 0xBF :: rest) = .ok rest ∧
      jsonDecodeCharset true (0xFE :: 0xFF :: rest) = .ok (utf16Decode .be rest) ∧
      jsonDecodeCharset true (0xFF :: 0xFE :: rest) = .ok (utf16Decode .le rest)) ∧
    (filepathExt path ≠ ymlExt → filepathExt path ≠ yamlExt →
      fs path = .ok (0xEF :: 0xBB :: 0xBF :: c) →
      processDoc yamlToJSON validate false fs path =
          .error "load doc: unexpected BOM, see `-b` flag" ∧
        processDoc yamlToJSON validate true fs path = classifyValidate (validate c)) := by
  refine ⟨⟨?_, ?_, ?_⟩, ⟨?_, ?_, ?_⟩, ?_⟩
  · simpa using jsonDecodeCharset_utf8bom false rest
  · simpa using jsonDecodeCharset_bom16 false .be rest
  · simpa using jsonDecodeCharset_bom16 false .le rest
  · simpa using jsonDecodeCharset_utf8bom true rest
  · simpa using jsonDecodeCharset_bom16 true .be rest
  · simpa using jsonDecodeCharset_bom16 true .le rest
  · intro hyml hyaml hfs
    constructor <;>
      simp [processDoc, jsonLoader, hfs, hyml, hyaml,
        jsonDecodeCharset_utf8bom]

theorem bom_handling_witness :
    jsonDecodeCharset false [0xEF, 0xBB, 0xBF, 0x7B, 0x7D] =
      .error "unexpected BOM, see `-b` flag" ∧
    processDoc (fun _ => .error "yaml") (fun _ => .ok []) true
      (fun _ => .ok [0xEF, 0xBB, 0xBF, 0x7B, 0x7D]) ("d.json".toList) = .pass := by
  have h := bom_handling [0x7B, 0x7D] [0x7B, 0x7D] (fun _ => .error "yaml")
    (fun _ => .ok []) (fun _ => .ok [0xEF, 0xBB, 0xBF, 0x7B, 0x7D]) ("d.json".toList)
  exact ⟨h.1.1, (h.2.2 (by decide) (by decide) rfl).2⟩

/-! ## Extension-dispatch lemmas -/

lemma extSearch_eq_dot {r acc res : List Char} (h : extSearch r acc = '.' :: res) :
    ∃ pre t, r = pre ++ '.' :: t ∧ res = pre.reverse ++ acc := by
  induction r generalizing acc with
  | nil => simp [extSearch] at h
  | cons c rest ih =>
    by_cases hc : c = '/'
    · simp [extSearch, hc] at h
    · by_cases hd : c = '.'
      · subst hd
        simp [extSearch] at h
        exact ⟨[], rest, rfl, by simp [h]⟩
      · rw [extSearch, if_neg hc, if_neg hd] at h
        obtain ⟨pre, t, hr, hres⟩ := ih h
        exact ⟨c :: pre, t, by simp [hr], by simp [hres]⟩

lemma filepathExt_yml_iff (p : List Char) : filepathExt p = ymlExt ↔ ymlExt <:+ p := by
  constructor
  · intro h
    obtain ⟨pre, t, hr, hres⟩ :=
      extSearch_eq_dot (show extSearch p.reverse [] = '.' :: ['y', 'm', 'l'] from h)
    have hpre : pre = ['l', 'm', 'y'] := by
      have h2 : pre.reverse = ['y', 'm', 'l'] := by simpa using hres.symm
      have := congrArg List.reverse h2
      simpa using this
    subst hpre
    refine ⟨t.reverse, ?_⟩
    have := congrArg List.reverse hr
    simpa [ymlExt, List.reverse_append] using this.symm
  · rintro ⟨u, rfl⟩
    simp [filepathExt, ymlExt, List.reverse_append, extSearch]

lemma filepathExt_yaml_iff (p : List Char) : filepathExt p = yamlExt ↔ yamlExt <:+ p := by
  constructor
  · intro h
    obtain ⟨pre, t, hr, hres⟩ :=
      extSearch_eq_dot (show extSearch p.reverse [] = '.' :: ['y', 'a', 'm', 'l'] from h)
    have hpre : pre = ['l', 'm', 'a', 'y'] := by
      have h2 : pre.reverse = ['y', 'a', 'm', 'l'] := by simpa using hres.symm
      have := congrArg List.reverse h2
      simpa using this
    subst hpre
    refine ⟨t.reverse, ?_⟩
    have := congrArg List.reverse hr
    simpa [yamlExt, List.reverse_append] using this.symm
  · rintro ⟨u, rfl⟩
    simp [filepathExt, yamlExt, List.reverse_append, extSearch]

/-! ## Claim C6 -/

/-- C6: document loading dispatches purely on the file extension — a
path ending in `.yml` or `.yaml` routes the raw bytes to the external
YAML-to-JSON converter, every other path routes them through
`jsonDecodeCharset` — and a failure in any stage (read, conversion,
normalization) is returned as the loader's error, which the worker
uniformly turns into an Error outcome tagged "load doc". -/
theorem loader_dispatch (yamlToJSON : List Nat → Except String (List Nat))
    (validate : List Nat → Except String (List String)) (allowBOM : Bool)
    (fs : List Char → Except String (List Nat)) (path : List Char) :
    (∀ buf, fs path = .ok buf →
      ((ymlExt <:+ path ∨ yamlExt <:+ path →
          jsonLoader yamlToJSON allowBOM fs path = yamlToJSON buf) ∧
        (¬ ymlExt <:+ path → ¬ yamlExt <:+ path →
          jsonLoader yamlToJSON allowBOM fs path = jsonDecodeCharset allowBOM buf))) ∧
    (∀ e, fs path = .error e → jsonLoader yamlToJSON allowBOM fs path = .error e) ∧
    (∀ e, jsonLoader yamlToJSON allowBOM fs path = .error e →
      processDoc yamlToJSON validate allowBOM fs path = .error ("load doc: " ++ e)) := by
  refine ⟨fun buf hfs => ⟨fun hsuf => ?_, fun h1 h2 => ?_⟩, fun e hfs => ?_, fun e h => ?_⟩
  · have : filepathExt path = ymlExt ∨ filepathExt path = yamlExt :=
      hsuf.imp (filepathExt_yml_iff path).mpr (filepathExt_yaml_iff path).mpr
    simp [jsonLoader, hfs, this]
  · have e1 : ¬ filepathExt path = ymlExt := fun hh => h1 ((filepathExt_yml_iff path).mp hh)
    have e2 : ¬ filepathExt path = yamlExt := fun hh => h2 ((filepathExt_yaml_iff path).mp hh)
    simp [jsonLoader, hfs, e1, e2]
  · simp [jsonLoader, hfs]
  · simp [processDoc, h]

theorem loader_dispatch_witness :
    jsonLoader (fun _ => .ok [0x31]) true (fun _ => .ok [0x7B]) ("a.yaml".toList) =
      .ok [0x31] ∧
    jsonLoader (fun _ => .ok [0x31]) true (fun _ => .ok [0x7B]) ("a.json".toList) =
      .ok [0x7B] ∧
    processDoc (fun _ => .ok [0x31]) (fun _ => .ok []) true (fun _ => .error "no such file")
      ("a.json".toList) = .error ("load doc: " ++ "no such file") := by
  have h1 := loader_dispatch (fun _ => .ok [0x31]) (fun _ => .ok []) true
    (fun _ => .ok [0x7B]) ("a.yaml".toList)
  have h2 := loader_dispatch (fun _ => .ok [0x31]) (fun _ => .ok []) true
    (fun _ => .ok [0x7B]) ("a.json".toList)
  have h3 := loader_dispatch (fun _ => .ok [0x31]) (fun _ => .ok []) true
    (fun _ => .error "no such file") ("a.json".toList)
  refine ⟨(h1.1 [0x7B] rfl).1 (Or.inr (by decide)), ?_, ?_⟩
  · have := (h2.1 [0x7B] rfl).2 (by decide) (by decide)
    exact this.trans (by decide)
  · exact h3.2.2 "no such file" (h3.2.1 "no such file" rfl)

/-! ## Aggregation lemmas -/

lemma filterMap_map_eq_nil_iff {α β γ : Type} (f : α → β) (g : β → Option γ) (l : List α) :
    (l.map f).filterMap g = [] ↔ ∀ a ∈ l, g (f a) = none := by
  induction l with
  | nil => simp
  | cons a t ih => cases h : g (f a) <;> simp [List.filterMap_cons, h, ih]

lemma runDocs_failures_eq_nil (yamlToJSON : List Nat → Except String (List Nat))
    (validate : List Nat → Except String (List String)) (ab q : Bool)
    (fs : List Char → Except String (List Nat)) (docs : List (List Char)) :
    ((runDocs yamlToJSON validate ab q fs docs).failures = []) ↔
      ∀ p ∈ docs, (processDoc yamlToJSON validate ab fs p).isFail = false := by
  simp only [runDocs]
  rw [filterMap_map_eq_nil_iff]
  refine forall_congr' fun p => forall_congr' fun hp => ?_
  cases processDoc yamlToJSON validate ab fs p <;> simp [Outcome.isFail]

lemma runDocs_errors_eq_nil (yamlToJSON : List Nat → Except String (List Nat))
    (validate : List Nat → Except String (List String)) (ab q : Bool)
    (fs : List Char → Except String (List Nat)) (docs : List (List Char)) :
    ((runDocs yamlToJSON validate ab q fs docs).errors = []) ↔
      ∀ p ∈ docs, (processDoc yamlToJSON validate ab fs p).isError = false := by
  simp only [runDocs]
  rw [filterMap_map_eq_nil_iff]
  refine forall_congr' fun p => forall_congr' fun hp => ?_
  cases processDoc yamlToJSON validate ab fs p <;> simp [Outcome.isError]

lemma runDocs_exit (yamlToJSON : List Nat → Except String (List Nat))
    (validate : List Nat → Except String (List String)) (ab q : Bool)
    (fs : List Char → Except String (List Nat)) (docs : List (List Char)) :
    (runDocs yamlToJSON validate ab q fs docs).exit =
      ((if docs.any (fun p => (processDoc yamlToJSON validate ab fs p).isFail)
          then 1 else 0) |||
       (if docs.any (fun p => (processDoc yamlToJSON validate ab fs p).isError)
          then 2 else 0)) := by
  have hstep : (runDocs yamlToJSON validate ab q fs docs).exit =
      ((if (runDocs yamlToJSON validate ab q fs docs).failures ≠ [] then 1 else 0) |||
       (if (runDocs yamlToJSON validate ab q fs docs).errors ≠ [] then 2 else 0)) := rfl
  have keyF : ((runDocs yamlToJSON validate ab q fs docs).failures ≠ []) ↔
      (docs.any (fun p => (processDoc yamlToJSON validate ab fs p).isFail) = true) := by
    rw [Ne, runDocs_failures_eq_nil]
    simp [List.any_eq_true]
  have keyE : ((runDocs yamlToJSON validate ab q fs docs).errors ≠ []) ↔
      (docs.any (fun p => (processDoc yamlToJSON validate ab fs p).isError) = true) := by
    rw [Ne, runDocs_errors_eq_nil]
    simp [List.any_eq_true]
  rw [hstep]
  simp only [keyF, keyE]

lemma realMain_run (yamlToJSON : List Nat → Except String (List Nat))
    (fs : List Char → Except String (List Nat)) (cfg : Config)
    (validate : List Nat → Except String (List String)) (listDocs : List (List Char))
    (hv : cfg.version = false) (hs : cfg.schemaFlag ≠ [])
    (hl : resolveLists cfg.lists = .ok listDocs) (hd : cfg.args ++ listDocs ≠ [])
    (hc : cfg.compile = .ok validate) :
    realMain yamlToJSON fs cfg =
      ((runDocs yamlToJSON validate cfg.allowBOM cfg.quiet fs (cfg.args ++ listDocs)).exit,
       (runDocs yamlToJSON validate cfg.allowBOM cfg.quiet fs (cfg.args ++ listDocs)).docLines
         ++ (runDocs yamlToJSON validate cfg.allowBOM cfg.quiet fs
              (cfg.args ++ listDocs)).summary) := by
  simp [realMain, hv, hs, hl, hd, hc]

/-! ## Claim C1 -/

/-- C1: in every run that reaches validation, the exit code is the
bitwise OR of 1 (when some document's outcome is Fail) and 2 (when some
document's outcome is Error), and 0 when every document passes. -/
theorem exit_code_bitmask (yamlToJSON : List Nat → Except String (List Nat))
    (fs : List Char → Except String (List Nat)) (cfg : Config)
    (validate : List Nat → Except String (List String)) (listDocs : List (List Char))
    (hv : cfg.version = false) (hs : cfg.schemaFlag ≠ [])
    (hl : resolveLists cfg.lists = .ok listDocs) (hd : cfg.args ++ listDocs ≠ [])
    (hc : cfg.compile = .ok validate) :
    (realMain yamlToJSON fs cfg).1 =
      ((if (cfg.args ++ listDocs).any
          (fun p => (processDoc yamlToJSON validate cfg.allowBOM fs p).isFail)
          then 1 else 0) |||
       (if (cfg.args ++ listDocs).any
          (fun p => (processDoc yamlToJSON validate cfg.allowBOM fs p).isError)
          then 2 else 0)) ∧
    ((∀ p ∈ cfg.args ++ listDocs,
        processDoc yamlToJSON validate cfg.allowBOM fs p = .pass) →
      (realMain yamlToJSON fs cfg).1 = 0) := by
  have hmain := realMain_run yamlToJSON fs cfg validate listDocs hv hs hl hd hc
  constructor
  · rw [hmain]
    exact runDocs_exit yamlToJSON validate cfg.allowBOM cfg.quiet fs (cfg.args ++ listDocs)
  · intro hall
    rw [hmain]
    simp only [runDocs_exit]
    have hF : ¬((cfg.args ++ listDocs).any
        (fun p => (processDoc yamlToJSON validate cfg.allowBOM fs p).isFail)) = true := by
      intro hany
      obtain ⟨p, hp, hbad⟩ := List.any_eq_true.mp hany
      rw [hall p hp] at hbad
      simp [Outcome.isFail] at hbad
    have hE : ¬((cfg.args ++ listDocs).any
        (fun p => (processDoc yamlToJSON validate cfg.allowBOM fs p).isError)) = true := by
      intro hany
      obtain ⟨p, hp, hbad⟩ := List.any_eq_true.mp hany
      rw [hall p hp] at hbad
      simp [Outcome.isError] at hbad
    rw [if_neg hF, if_neg hE]
    decide

theorem exit_code_bitmask_witness :
    (realMain (fun _ => .error "yaml")
      (fun p => if p = "a.json".toList then .ok [0x31] else .ok [0x5B])
      { version := false, schemaFlag := "s.json".toList, quiet := true, allowBOM := false,
        args := ["a.json".toList, "b.json".toList], lists := [],
        compile := .ok (fun b =>
          if b = [0x31] then .ok ["(root): foo is required"]
          else .error "invalid character") }).1 = 3 ∧
    (realMain (fun _ => .error "yaml")
      (fun _ => .ok [0x31])
      { version := false, schemaFlag := "s.json".toList, quiet := false, allowBOM := false,
        args := ["a.json".toList], lists := [],
        compile := .ok (fun _ => .ok []) }).1 = 0 := by
  constructor
  · have h := exit_code_bitmask (fun _ => .error "yaml")
      (fun p => if p = "a.json".toList then .ok [0x31] else .ok [0x5B])
      { version := false, schemaFlag := "s.json".toList, quiet := true, allowBOM := false,
        args := ["a.json".toList, "b.json".toList], lists := [],
        compile := .ok (fun b =>
          if b = [0x31] then .ok ["(root): foo is required"]
          else .error "invalid character") }
      (fun b => if b = [0x31] then .ok ["(root): foo is required"]
        else .error "invalid character")
      [] rfl (by decide) rfl (by decide) rfl
    rw [h.1]
    decide
  · have h := exit_code_bitmask (fun _ => .error "yaml") (fun _ => .ok [0x31])
      { version := false, schemaFlag := "s.json".toList, quiet := false, allowBOM := false,
        args := ["a.json".toList], lists := [], compile := .ok (fun _ => .ok []) }
      (fun _ => .ok []) [] rfl (by decide) rfl (by decide) rfl
    exact h.2 (by decide)

/-! ## Claim C7 -/

/-- C7: a missing `-s` flag or an empty resolved document set ends the
run with exit code 4 and no document output; an unreadable file list or
a failing schema-compilation stage ends it with exit code 5 and no
document output.  In the source these returns happen before any worker
goroutine is started. -/
theorem early_abort_exit_codes (yamlToJSON : List Nat → Except String (List Nat))
    (fs : List Char → Except String (List Nat)) (cfg : Config) :
    (cfg.version = false → cfg.schemaFlag = [] →
      realMain yamlToJSON fs cfg = (4, [])) ∧
    (∀ listDocs, cfg.version = false → cfg.schemaFlag ≠ [] →
      resolveLists cfg.lists = .ok listDocs → cfg.args ++ listDocs = [] →
      realMain yamlToJSON fs cfg = (4, [])) ∧
    (∀ e, cfg.version = false → cfg.schemaFlag ≠ [] →
      resolveLists cfg.lists = .error e → realMain yamlToJSON fs cfg = (5, [])) ∧
    (∀ listDocs e, cfg.version = false → cfg.schemaFlag ≠ [] →
      resolveLists cfg.lists = .ok listDocs → cfg.args ++ listDocs ≠ [] →
      cfg.compile = .error e → realMain yamlToJSON fs cfg = (5, [])) := by
  refine ⟨fun hv hs => ?_, fun listDocs hv hs hl hd => ?_, fun e hv hs hl => ?_,
    fun listDocs e hv hs hl hd hc => ?_⟩
  · simp [realMain, hv, hs]
  · simp [realMain, hv, hs, hl, hd]
  · simp [realMain, hv, hs, hl]
  · simp [realMain, hv, hs, hl, hd, hc]

theorem early_abort_exit_codes_witness :
    realMain (fun _ => .error "yaml") (fun _ => .ok [])
      { version := false, schemaFlag := [], quiet := false, allowBOM := false,
        args := [], lists := [], compile := .ok (fun _ => .ok []) } = (4, []) ∧
    realMain (fun _ => .error "yaml") (fun _ => .ok [])
      { version := false, schemaFlag := "s.json".toList, quiet := false, allowBOM := false,
        args := [], lists := [], compile := .ok (fun _ => .ok []) } = (4, []) ∧
    realMain (fun _ => .error "yaml") (fun _ => .ok [])
      { version := false, schemaFlag := "s.json".toList, quiet := false, allowBOM := false,
        args := [], lists := [.error "docs.txt: permission denied"],
        compile := .ok (fun _ => .ok []) } = (5, []) ∧
    realMain (fun _ => .error "yaml") (fun _ => .ok [])
      { version := false, schemaFlag := "s.json".toList, quiet := false, allowBOM := false,
        args := ["a.json".toList], lists := [],
        compile := .error "s.json: invalid schema" } = (5, []) := by
  refine ⟨?_, ?_, ?_, ?_⟩
  · exact (early_abort_exit_codes _ _ _).1 rfl rfl
  · exact (early_abort_exit_codes _ _ _).2.1 [] rfl (by decide) rfl rfl
  · exact (early_abort_exit_codes _ _ _).2.2.1 "docs.txt: permission denied" rfl
      (by decide) rfl
  · exact (early_abort_exit_codes _ _ _).2.2.2 [] "s.json: invalid schema" rfl
      (by decide) rfl (by decide) rfl

/-! ## Output lemmas -/

lemma mem_concatAll {x : String} {L : List (List String)} :
    x ∈ concatAll L ↔ ∃ l ∈ L, x ∈ l := by
  induction L with
  | nil => simp [concatAll]
  | cons l rest ih => simp [concatAll, ih]

/-! ## Claim C8 -/

/-- C8 (counterexample): a quiet run with one failing document has a
nonempty failure bucket (something to summarize), yet its summary is
empty — `-q` suppresses the end-of-run summary even when there is
something to summarize, so the claim's "emitted unless the run is quiet
and there is nothing to summarize" fails at this input. -/
theorem quiet_output_cex :
    ((runDocs (fun _ => .error "y") (fun _ => .ok ["(root): foo is required"]) false true
        (fun _ => .ok [0x7B, 0x7D]) ["a.json".toList]).failures ≠ []) ∧
    ((runDocs (fun _ => .error "y") (fun _ => .ok ["(root): foo is required"]) false true
        (fun _ => .ok [0x7B, 0x7D]) ["a.json".toList]).summary = []) := by
  decide

/-- C8 (amended): with `-q` the per-document pass lines are suppressed
(the document lines are exactly the failure and error lines) while
failure and error lines are printed in quiet and non-quiet runs alike;
the end-of-run summary is emitted only in non-quiet runs, the
failed-validation block when at least one failure exists and the
malformed-documents block when at least one error exists. -/
theorem quiet_output (yamlToJSON : List Nat → Except String (List Nat))
    (validate : List Nat → Except String (List String)) (ab : Bool)
    (fs : List Char → Except String (List Nat)) (docs : List (List Char)) :
    ((runDocs yamlToJSON validate ab true fs docs).docLines =
      concatAll (docs.map (fun p =>
        match processDoc yamlToJSON validate ab fs p with
        | .error e => [errorLine p e]
        | .fail msgs => [failBlock p msgs]
        | .pass => []))) ∧
    (∀ p ∈ docs, processDoc yamlToJSON validate ab fs p = .pass →
      (pathStr p ++ ": pass") ∈ (runDocs yamlToJSON validate ab false fs docs).docLines) ∧
    (∀ q : Bool, ∀ p ∈ docs, ∀ e, processDoc yamlToJSON validate ab fs p = .error e →
      errorLine p e ∈ (runDocs yamlToJSON validate ab q fs docs).docLines) ∧
    (∀ q : Bool, ∀ p ∈ docs, ∀ msgs, processDoc yamlToJSON validate ab fs p = .fail msgs →
      failBlock p msgs ∈ (runDocs yamlToJSON validate ab q fs docs).docLines) ∧
    ((runDocs yamlToJSON validate ab true fs docs).summary = []) ∧
    ((runDocs yamlToJSON validate ab false fs docs).summary =
      (if (runDocs yamlToJSON validate ab false fs docs).failures ≠ [] then
        [toString (runDocs yamlToJSON validate ab false fs docs).failures.length ++ " of " ++
           toString docs.length ++ " failed validation",
         String.intercalate "\n" (runDocs yamlToJSON validate ab false fs docs).failures]
       else []) ++
      (if (runDocs yamlToJSON validate ab false fs docs).errors ≠ [] then
        [toString (runDocs yamlToJSON validate ab false fs docs).errors.length ++ " of " ++
           toString docs.length ++ " malformed documents",
         String.intercalate "\n" (runDocs yamlToJSON validate ab false fs docs).errors]
       else [])) := by
  refine ⟨?_, fun p hp hout => ?_, fun q p hp e hout => ?_, fun q p hp msgs hout => ?_,
    ?_, ?_⟩
  · simp only [runDocs, List.map_map]
    congr 1
  · simp only [runDocs, List.map_map]
    rw [mem_concatAll]
    refine ⟨_, List.mem_map_of_mem _ hp, ?_⟩
    simp [hout]
  · simp only [runDocs, List.map_map]
    rw [mem_concatAll]
    refine ⟨_, List.mem_map_of_mem _ hp, ?_⟩
    simp [hout]
  · simp only [runDocs, List.map_map]
    rw [mem_concatAll]
    refine ⟨_, List.mem_map_of_mem _ hp, ?_⟩
    simp [hout]
  · simp [runDocs]
  · simp only [runDocs]
    simp

theorem quiet_output_witness :
    (pathStr "a.json".toList ++ ": pass") ∈
      (runDocs (fun _ => .error "y") (fun _ => .ok []) false false
        (fun _ => .ok [0x7B, 0x7D]) ["a.json".toList]).docLines ∧
    (runDocs (fun _ => .error "y") (fun _ => .ok []) false true
        (fun _ => .ok [0x7B, 0x7D]) ["a.json".toList]).summary = [] := by
  have h := quiet_output (fun _ => .error "y") (fun _ => .ok []) false
    (fun _ => .ok [0x7B, 0x7D]) ["a.json".toList]
  exact ⟨h.2.1 "a.json".toList (by decide) (by decide), h.2.2.2.2.1⟩

/-! ## Claim C2 -/

/-- C2 (code bug): with two documents that both fail validation, the
interleaving in which both worker goroutines read the shared `failures`
slice before either writes back (`failures = append(failures, msg)` is
not atomic and `realMain` takes no lock) records only one of the two
outcomes, while the serialized interleaving records both — so the
outcome count can drop below the input document count under concurrent
execution. -/
theorem record_race_drops_outcome :
    ((raceRun (fun w => if w = 0 then "a.json: fail: (root): foo is required"
        else "b.json: fail: (root): foo is required")
      [.read 0, .read 1, .write 0, .write 1]).shared.length = 1) ∧
    ((raceRun (fun w => if w = 0 then "a.json: fail: (root): foo is required"
        else "b.json: fail: (root): foo is required")
      [.read 0, .write 0, .read 1, .write 1]).shared.length = 2) := by
  constructor <;> rfl

/-! ## UTF-16 round-trip lemmas -/

lemma utf16Units_unitBytes (e : Endian) (x : Nat) (tail : List Nat) (_h : x < 0x10000) :
    utf16Units e (utf16UnitBytes e x ++ tail) = x :: utf16Units e tail := by
  cases e <;> simp [utf16UnitBytes, utf16Units, utf16Unit] <;> omega

lemma utf16Units_encode (e : Endian) (cps : List Nat) (h : ∀ c ∈ cps, ScalarValue c) :
    utf16Units e (utf16Encode e cps) = unitsOfScalars cps := by
  induction cps with
  | nil => rfl
  | cons c rest ih =>
    have hc := h c (by simp)
    have hrest : ∀ x ∈ rest, ScalarValue x := fun x hx => h x (by simp [hx])
    by_cases hsmall : c < 0x10000
    · rw [utf16Encode, utf16EncodeChar, if_pos hsmall,
        utf16Units_unitBytes e c _ hsmall, unitsOfScalars, if_pos hsmall, ih hrest]
    · have hbound := hc.1
      have h1 : 0xD800 + (c - 0x10000) / 0x400 < 0x10000 := by omega
      have h2 : 0xDC00 + (c - 0x10000) % 0x400 < 0x10000 := by omega
      rw [utf16Encode, utf16EncodeChar, if_neg hsmall, List.append_assoc,
        utf16Units_unitBytes e _ _ h1, utf16Units_unitBytes e _ _ h2,
        unitsOfScalars, if_neg hsmall, ih hrest]

lemma utf16DecodeUnits_scalars (cps : List Nat) (h : ∀ c ∈ cps, ScalarValue c) :
    utf16DecodeUnits (unitsOfScalars cps) none = utf8Encode cps := by
  induction cps with
  | nil => rfl
  | cons c rest ih =>
    have hc := h c (by simp)
    have hrest : ∀ x ∈ rest, ScalarValue x := fun x hx => h x (by simp [hx])
    by_cases hsmall : c < 0x10000
    · rw [unitsOfScalars, if_pos hsmall]
      cases hu : unitsOfScalars rest with
      | nil =>
        rw [utf16DecodeUnits, if_neg hc.2, utf8Encode, ← hu, ih hrest]
      | cons u us =>
        rw [utf16DecodeUnits, if_neg hc.2, utf8Encode, ← hu, ih hrest]
    · have hbound := hc.1
      rw [unitsOfScalars, if_neg hsmall]
      have hhi : 0xD800 ≤ 0xD800 + (c - 0x10000) / 0x400 ∧
          0xD800 + (c - 0x10000) / 0x400 < 0xE000 := by omega
      have hlo : 0xDC00 ≤ 0xDC00 + (c - 0x10000) % 0x400 ∧
          0xDC00 + (c - 0x10000) % 0x400 < 0xE000 := by omega
      rw [utf16DecodeUnits, if_pos hhi, utf16DecodeUnits, if_pos hlo]
      have hcomb : utf16Combine (0xD800 + (c - 0x10000) / 0x400)
          (0xDC00 + (c - 0x10000) % 0x400) = c := by
        unfold utf16Combine
        rw [if_pos (by omega)]
        omega
      rw [hcomb, ih hrest, utf8Encode]

lemma utf16_decode_encode (e : Endian) (cps : List Nat) (h : ∀ c ∈ cps, ScalarValue c) :
    utf16Decode e (utf16Encode e cps) = utf8Encode cps := by
  rw [utf16Decode, utf16Units_encode e cps h, utf16DecodeUnits_scalars cps h]

lemma utf8EncodeChar_ne_zero_head (c : Nat) (h : c ≠ 0) :
    ∃ b t, utf8EncodeChar c = b :: t ∧ b ≠ 0 := by
  unfold utf8EncodeChar
  split_ifs with h1 h2 h3
  · exact ⟨c, [], rfl, h⟩
  · exact ⟨_, _, rfl, by omega⟩
  · exact ⟨_, _, rfl, by omega⟩
  · exact ⟨_, _, rfl, by omega⟩

/-- A text-shaped scalar sequence has a UTF-8 encoding that passes
charset normalization unchanged (no BOM, no leading zero byte in the
first two positions), for either setting of the allow-BOM flag. -/
lemma utf8Encode_neutral (cps : List Nat) (h : textShaped cps = true) (ab : Bool) :
    jsonDecodeCharset ab (utf8Encode cps) = .ok (utf8Encode cps) := by
  match cps with
  | [] => rfl
  | [c0] =>
    have hc0 : 0 < c0 ∧ c0 < 0x80 := by simpa [textShaped] using h
    have henc : utf8Encode [c0] = [c0] := by
      rw [utf8Encode, utf8Encode, utf8EncodeChar, if_pos hc0.2]
      simp
    rw [henc]
    rfl
  | c0 :: c1 :: rest =>
    have hc : (0 < c0 ∧ c0 < 0x80) ∧ c1 ≠ 0 := by simpa [textShaped] using h
    obtain ⟨b1, t1, henc1, hb1⟩ := utf8EncodeChar_ne_zero_head c1 hc.2
    have henc : utf8Encode (c0 :: c1 :: rest) =
        c0 :: b1 :: (t1 ++ utf8Encode rest) := by
      rw [utf8Encode, utf8Encode, utf8EncodeChar, if_pos hc.1.2, henc1]
      simp
    rw [henc]
    refine jsonDecodeCharset_plain ab c0 b1 _ ?_ ?_ ?_ (by omega) hb1
    · rintro ⟨r, hr⟩
      simp [bomUTF8] at hr
      omega
    · rintro ⟨r, hr⟩
      simp [bomUTF16BE] at hr
      omega
    · rintro ⟨r, hr⟩
      simp [bomUTF16LE] at hr
      omega

/-! ## Claim C5 -/

/-- C5 (counterexample): the UTF-16BE encoding of `{}` with its correct
BOM is an Error outcome when `-b` is absent, while its UTF-8 equivalent
passes — the outcomes are not the same "regardless of whether the -b
flag is set". -/
theorem utf16_bom_roundtrip_cex :
    ([0xFE, 0xFF, 0x00, 0x7B, 0x00, 0x7D] : List Nat) =
      bomBytes .be ++ utf16Encode .be [0x7B, 0x7D] ∧
    ([0x7B, 0x7D] : List Nat) = utf8Encode [0x7B, 0x7D] ∧
    processDoc (fun _ => .error "yaml") (fun _ => .ok []) false
      (fun _ => .ok [0xFE, 0xFF, 0x00, 0x7B, 0x00, 0x7D]) ("d.json".toList) =
      .error "load doc: unexpected BOM, see `-b` flag" ∧
    processDoc (fun _ => .error "yaml") (fun _ => .ok []) false
      (fun _ => .ok [0x7B, 0x7D]) ("d.json".toList) = .pass := by
  decide

/-- C5 (amended): a text-shaped document encoded in UTF-16 (either byte
order) with its correct BOM validates to the same outcome as its UTF-8
equivalent *when the allow-BOM flag is set*; without the flag the
BOM-carrying document is rejected as an Error outcome while the UTF-8
equivalent is classified by its content. -/
theorem utf16_bom_roundtrip (e : Endian) (cps : List Nat)
    (yamlToJSON : List Nat → Except String (List Nat))
    (validate : List Nat → Except String (List String))
    (fs16 fs8 : List Char → Except String (List Nat)) (path : List Char)
    (hscalar : ∀ c ∈ cps, ScalarValue c) (hshape : textShaped cps = true)
    (hyml : filepathExt path ≠ ymlExt) (hyaml : filepathExt path ≠ yamlExt)
    (h16 : fs16 path = .ok (bomBytes e ++ utf16Encode e cps))
    (h8 : fs8 path = .ok (utf8Encode cps)) :
    processDoc yamlToJSON validate true fs16 path =
      processDoc yamlToJSON validate true fs8 path ∧
    processDoc yamlToJSON validate false fs16 path =
      .error "load doc: unexpected BOM, see `-b` flag" ∧
    processDoc yamlToJSON validate false fs8 path =
      classifyValidate (validate (utf8Encode cps)) := by
  have hdec16 : jsonDecodeCharset true (bomBytes e ++ utf16Encode e cps) =
      .ok (utf8Encode cps) := by
    rw [jsonDecodeCharset_bom16]
    simp [utf16_decode_encode e cps hscalar]
  have hdece : jsonDecodeCharset false (bomBytes e ++ utf16Encode e cps) =
      .error "unexpected BOM, see `-b` flag" := by
    rw [jsonDecodeCharset_bom16]
    simp
  have hdec8t := utf8Encode_neutral cps hshape true
  have hdec8f := utf8Encode_neutral cps hshape false
  refine ⟨?_, ?_, ?_⟩ <;>
    simp [processDoc, jsonLoader, h16, h8, hyml, hyaml, hdec16, hdece, hdec8t, hdec8f]

theorem utf16_bom_roundtrip_witness :
    processDoc (fun _ => .error "yaml") (fun _ => .ok []) true
      (fun _ => .ok (bomBytes .be ++ utf16Encode .be [0x7B, 0x7D])) ("d.json".toList) =
      processDoc (fun _ => .error "yaml") (fun _ => .ok []) true
        (fun _ => .ok (utf8Encode [0x7B, 0x7D])) ("d.json".toList) ∧
    processDoc (fun _ => .error "yaml") (fun _ => .ok []) false
      (fun _ => .ok (bomBytes .be ++ utf16Encode .be [0x7B, 0x7D])) ("d.json".toList) =
      .error "load doc: unexpected BOM, see `-b` flag" := by
  have h := utf16_bom_roundtrip .be [0x7B, 0x7D] (fun _ => .error "yaml")
    (fun _ => .ok [])
    (fun _ => .ok (bomBytes .be ++ utf16Encode .be [0x7B, 0x7D]))
    (fun _ => .ok (utf8Encode [0x7B, 0x7D])) ("d.json".toList)
    (by decide) (by decide) (by decide) (by decide) rfl rfl
  exact ⟨h.1, h.2.1⟩

end Yajsv
